import Mathlib

/-!
Shallow embedding of the mixture-model notebook (robust linear regression
with an outlier mixture).  The probabilistic model lives in one code cell:
a flat prior with per-parameter bounds, a foreground (linear) and a
background (single Gaussian) log-likelihood, a combined log-probability
using log-add-exp, and a posterior membership averaging loop over the
stored blobs.  Machine floats are modelled by exact reals; the value minus
infinity returned on prior rejection is modelled by the bottom of EReal.
-/

namespace MixtureModel

noncomputable section

open scoped Classical

/-- Parameter vector theta = (m, b, Q, M, lnV): slope, intercept,
foreground mixture weight, outlier mean, log outlier variance. -/
structure Params where
  m : ℝ
  b : ℝ
  Q : ℝ
  M : ℝ
  lnV : ℝ

/-- Observation sequence of length K: abscissae x, ordinates y and
per-point noise scales yerr (sigma). -/
structure Data (K : ℕ) where
  x : Fin K → ℝ
  y : Fin K → ℝ
  yerr : Fin K → ℝ

/-- Data-model requirement on the observations: every noise scale sigma
is strictly positive (in the notebook yerr is the constant 0.2). -/
def Data.sigmaPos {K : ℕ} (d : Data K) : Prop := ∀ k, 0 < d.yerr k

/-- Parameter vector as the list the notebook zips against the bounds. -/
def Params.toList (p : Params) : List ℝ := [p.m, p.b, p.Q, p.M, p.lnV]

/-- Per-parameter prior bounds from the notebook:
bounds = [(0.1, 1.9), (-0.9, 0.9), (0, 1), (-2.4, 2.4), (-7.2, 5.2)]. -/
def bounds : List (ℝ × ℝ) := [(0.1, 1.9), (-0.9, 0.9), (0, 1), (-2.4, 2.4), (-7.2, 5.2)]

/-- Prior acceptance predicate: all (b[0] < v < b[1] for v, b in zip(p, bounds)). -/
def priorOK (p : Params) : Prop :=
  List.Forall₂ (fun v bd => bd.1 < v ∧ v < bd.2) p.toList bounds

/-- lnprior from the notebook: 0 inside the bounds, minus infinity outside. -/
def lnprior (p : Params) : EReal :=
  if priorOK p then 0 else ⊥

/-- lnlike_fg from the notebook: the foreground (linear model) Gaussian
log-likelihood vector, with model = m * x + b. -/
def lnlike_fg {K : ℕ} (d : Data K) (p : Params) : Fin K → ℝ :=
  fun k =>
    let model := p.m * d.x k + p.b;
    -0.5 * (((model - d.y k) / d.yerr k) ^ 2 + 2 * Real.log (d.yerr k))

/-- lnlike_bg from the notebook: the background (outlier) Gaussian
log-likelihood vector, with var = exp(lnV) + yerr ** 2. -/
def lnlike_bg {K : ℕ} (d : Data K) (p : Params) : Fin K → ℝ :=
  fun k =>
    let var := Real.exp p.lnV + d.yerr k ^ 2;
    -0.5 * ((p.M - d.y k) ^ 2 / var + Real.log var)

/-- The log-add-exp primitive (np.logaddexp) over exact reals. -/
def logaddexp (a b : ℝ) : ℝ := Real.log (Real.exp a + Real.exp b)

/-- lnprob from the notebook: check the prior; on rejection return minus
infinity with two all-zero vectors; otherwise return the prior plus the
summed log-add-exp combination, together with the two weighted
log-likelihood vectors arg1 = ll_fg + log Q and arg2 = ll_bg + log(1 - Q)
(the blobs). -/
def lnprob {K : ℕ} (d : Data K) (p : Params) :
    EReal × (Fin K → ℝ) × (Fin K → ℝ) :=
  if lnprior p = ⊥ then (⊥, fun _ => 0, fun _ => 0)
  else
    let arg1 := fun k => lnlike_fg d p k + Real.log p.Q
    let arg2 := fun k => lnlike_bg d p k + Real.log (1 - p.Q)
    let ll := ∑ k, logaddexp (arg1 k) (arg2 k)
    (lnprior p + (ll : EReal), arg1, arg2)

/-- A stored blob: the pair of weighted log-likelihood vectors
(ll_fg + log Q, ll_bg + log(1 - Q)) of one retained sample. -/
abbrev Blob (K : ℕ) := (Fin K → ℝ) × (Fin K → ℝ)

/-- Loop body of the posterior-membership accumulation: the state is the
running vector post_prob and the running counter norm; each blob adds
exp(ll_fg - logaddexp(ll_fg, ll_bg)) pointwise and bumps the counter. -/
def post_prob_step {K : ℕ} (acc : (Fin K → ℝ) × ℝ) (bl : Blob K) :
    (Fin K → ℝ) × ℝ :=
  (fun k => acc.1 k + Real.exp (bl.1 k - logaddexp (bl.1 k) (bl.2 k)), acc.2 + 1)

/-- post_prob from the notebook: iterate over the stored blobs (steps in
the outer loop, walkers in the inner loop), accumulate the per-point
membership terms and the counter norm, and divide by norm at the end. -/
def post_prob {K : ℕ} (blobs : List (List (Blob K))) : Fin K → ℝ :=
  let st := blobs.foldl (fun acc row => row.foldl post_prob_step acc) (fun _ => 0, 0)
  fun k => st.1 k / st.2

/-! Helper lemmas shared by several claims. -/

/-- The prior predicate unfolded into the five per-parameter double
inequalities. -/
lemma priorOK_iff (p : Params) :
    priorOK p ↔
      ((0.1 : ℝ) < p.m ∧ p.m < 1.9) ∧ ((-0.9 : ℝ) < p.b ∧ p.b < 0.9) ∧
        ((0 : ℝ) < p.Q ∧ p.Q < 1) ∧ ((-2.4 : ℝ) < p.M ∧ p.M < 2.4) ∧
          ((-7.2 : ℝ) < p.lnV ∧ p.lnV < 5.2) := by
  simp [priorOK, Params.toList, bounds, List.forall₂_cons]

lemma lnprior_eq_zero {p : Params} (h : priorOK p) : lnprior p = 0 := if_pos h

lemma lnprior_eq_bot {p : Params} (h : ¬ priorOK p) : lnprior p = ⊥ := if_neg h

lemma lnprior_ne_bot {p : Params} (h : priorOK p) : lnprior p ≠ ⊥ := by
  rw [lnprior_eq_zero h]
  simp

/-- Rejection branch of lnprob, shared by the out-of-bounds and the
boundary claims. -/
lemma lnprob_reject {K : ℕ} (d : Data K) (p : Params) (h : ¬ priorOK p) :
    lnprob d p = (⊥, fun _ => 0, fun _ => 0) := by
  simp [lnprob, lnprior_eq_bot h]

lemma exp_sub_logaddexp (a b : ℝ) :
    Real.exp (a - logaddexp a b) = Real.exp a / (Real.exp a + Real.exp b) := by
  have hs : (0 : ℝ) < Real.exp a + Real.exp b := by positivity
  rw [logaddexp, Real.exp_sub, Real.exp_log hs]

lemma memb_le_one (a b : ℝ) : Real.exp (a - logaddexp a b) ≤ 1 := by
  rw [Real.exp_le_one_iff, sub_nonpos, logaddexp,
    Real.le_log_iff_exp_le (by positivity)]
  linarith [Real.exp_pos b]

/-- The inner accumulation loop in closed form: folding a row of blobs
adds the per-point membership terms to the vector and the row length to
the counter. -/
lemma foldl_post_prob_step {K : ℕ} (l : List (Blob K)) (a : (Fin K → ℝ) × ℝ) :
    l.foldl post_prob_step a =
      (fun k => a.1 k +
          (l.map (fun bl => Real.exp (bl.1 k - logaddexp (bl.1 k) (bl.2 k)))).sum,
        a.2 + l.length) := by
  induction l generalizing a with
  | nil => cases a; simp
  | cons bl t ih =>
      rw [List.foldl_cons, ih]
      simp only [Prod.mk.injEq, post_prob_step, List.map_cons, List.sum_cons,
        List.length_cons]
      constructor
      · funext k
        ring
      · push_cast
        ring

/-- The doubly nested accumulation loop in closed form: the vector gets
the membership sums over the flattened blob store and the counter gets
the total number of samples. -/
lemma foldl_post_prob_rows {K : ℕ} (rows : List (List (Blob K)))
    (a : (Fin K → ℝ) × ℝ) :
    rows.foldl (fun acc row => row.foldl post_prob_step acc) a =
      (fun k => a.1 k +
          (rows.flatten.map
            (fun bl => Real.exp (bl.1 k - logaddexp (bl.1 k) (bl.2 k)))).sum,
        a.2 + rows.flatten.length) := by
  induction rows generalizing a with
  | nil => cases a; simp
  | cons r rs ih =>
      rw [List.foldl_cons, ih, foldl_post_prob_step]
      simp only [Prod.mk.injEq, List.flatten_cons, List.map_append,
        List.sum_append, List.length_append]
      constructor
      · funext k
        ring
      · push_cast
        ring

/-- The posterior summarizer in closed form: the membership sum over the
flattened blob store divided by the number of samples. -/
lemma post_prob_eq {K : ℕ} (blobs : List (List (Blob K))) (k : Fin K) :
    post_prob blobs k =
      (blobs.flatten.map
        (fun bl => Real.exp (bl.1 k - logaddexp (bl.1 k) (bl.2 k)))).sum /
        blobs.flatten.length := by
  simp [post_prob, foldl_post_prob_rows]

/-! Concrete inputs used by the witnesses. -/

/-- A one-point data set with x = 0, y = 0 and sigma = 1. -/
def dEx : Data 1 := ⟨fun _ => 0, fun _ => 0, fun _ => 1⟩

/-- A parameter vector strictly inside all the bounds. -/
def pEx : Params := ⟨1, 0, 1 / 2, 0, 0⟩

/-- A parameter vector whose slope 5 lies outside the bound (0.1, 1.9). -/
def pBad : Params := ⟨5, 0, 1 / 2, 0, 0⟩

/-- A parameter vector sitting exactly on the lower endpoint Q = 0 of the
bound (0, 1). -/
def pEdge : Params := ⟨1, 0, 0, 0, 0⟩

/-- A blob store with one step of one walker over one observation. -/
def blobsEx : List (List (Blob 1)) := [[(fun _ => 0, fun _ => 0)]]

lemma priorOK_pEx : priorOK pEx := by
  rw [priorOK_iff]
  norm_num [pEx]

lemma not_priorOK_pBad : ¬ priorOK pBad := by
  rw [priorOK_iff]
  norm_num [pBad]

lemma sigmaPos_dEx : dEx.sigmaPos := fun _ => one_pos

lemma pEdge_on_boundary :
    ∃ vb ∈ pEdge.toList.zip bounds, vb.1 = vb.2.1 ∨ vb.1 = vb.2.2 := by
  refine ⟨((0 : ℝ), ((0 : ℝ), (1 : ℝ))), ?_, Or.inl rfl⟩
  simp [Params.toList, bounds, pEdge]

/-! Claim theorems. -/

/-- C1: for every parameter vector strictly inside the bounds, the first
value returned by lnprob equals the log-prior (which is 0) plus the sum
over all K observations of logaddexp(ll_fg_k + log Q, ll_bg_k + log(1 - Q)),
and the second and third returned values are exactly the vectors
ll_fg + log Q and ll_bg + log(1 - Q). -/
theorem lnprob_inside_bounds {K : ℕ} (d : Data K) (p : Params) (h : priorOK p) :
    lnprior p = 0 ∧
      (lnprob d p).1 = lnprior p +
        ((∑ k, logaddexp (lnlike_fg d p k + Real.log p.Q)
          (lnlike_bg d p k + Real.log (1 - p.Q)) : ℝ) : EReal) ∧
      (lnprob d p).2.1 = (fun k => lnlike_fg d p k + Real.log p.Q) ∧
      (lnprob d p).2.2 = (fun k => lnlike_bg d p k + Real.log (1 - p.Q)) := by
  have hb := lnprior_ne_bot h
  refine ⟨lnprior_eq_zero h, ?_, ?_, ?_⟩ <;> simp [lnprob, hb]

/-- Witness for C1 at the concrete inside-bounds parameter vector pEx. -/
theorem lnprob_inside_bounds_witness :
    priorOK pEx ∧
      (lnprob dEx pEx).2.1 = (fun k => lnlike_fg dEx pEx k + Real.log pEx.Q) :=
  ⟨priorOK_pEx, (lnprob_inside_bounds dEx pEx priorOK_pEx).2.2.1⟩

/-- C2: for every parameter vector inside the bounds and every observation,
the combined per-point log-likelihood logaddexp(ll_fg + log Q,
ll_bg + log(1 - Q)) equals log(Q * p_fg + (1 - Q) * p_bg) computed in
linear space, with p_fg = exp(ll_fg) and p_bg = exp(ll_bg). -/
theorem combined_loglike_linear {K : ℕ} (d : Data K) (p : Params)
    (h : priorOK p) (k : Fin K) :
    logaddexp (lnlike_fg d p k + Real.log p.Q)
        (lnlike_bg d p k + Real.log (1 - p.Q)) =
      Real.log (p.Q * Real.exp (lnlike_fg d p k) +
        (1 - p.Q) * Real.exp (lnlike_bg d p k)) := by
  obtain ⟨-, -, ⟨hQ0, hQ1⟩, -, -⟩ := (priorOK_iff p).mp h
  have h1 : (0 : ℝ) < 1 - p.Q := by linarith
  rw [logaddexp, Real.exp_add, Real.exp_add, Real.exp_log hQ0, Real.exp_log h1]
  congr 1
  ring

/-- Witness for C2 at pEx on the one-point data set dEx. -/
theorem combined_loglike_linear_witness :
    priorOK pEx ∧
      logaddexp (lnlike_fg dEx pEx 0 + Real.log pEx.Q)
          (lnlike_bg dEx pEx 0 + Real.log (1 - pEx.Q)) =
        Real.log (pEx.Q * Real.exp (lnlike_fg dEx pEx 0) +
          (1 - pEx.Q) * Real.exp (lnlike_bg dEx pEx 0)) :=
  ⟨priorOK_pEx, combined_loglike_linear dEx pEx priorOK_pEx 0⟩

/-- C3: for every parameter vector with some component outside (or not
strictly between) its bounds, lnprob returns exactly minus infinity
together with two all-zero K-length vectors. -/
theorem lnprob_outside_bounds {K : ℕ} (d : Data K) (p : Params)
    (h : ¬ priorOK p) :
    lnprob d p = (⊥, fun _ => 0, fun _ => 0) :=
  lnprob_reject d p h

/-- Witness for C3 at the concrete out-of-bounds parameter vector pBad. -/
theorem lnprob_outside_bounds_witness :
    ¬ priorOK pBad ∧ lnprob dEx pBad = (⊥, fun _ => 0, fun _ => 0) :=
  ⟨not_priorOK_pBad, lnprob_outside_bounds dEx pBad not_priorOK_pBad⟩

lemma sum_map_length {α : Type} {W : ℕ} (rows : List (List α))
    (h : ∀ r ∈ rows, r.length = W) :
    (rows.map List.length).sum = rows.length * W := by
  induction rows with
  | nil => simp
  | cons r t ih =>
      simp only [List.map_cons, List.sum_cons, List.length_cons,
        h r (List.mem_cons_self r t), ih fun s hs => h s (List.mem_cons_of_mem r hs)]
      ring

/-- C4: for a blob store with S production steps of W walkers each, the
posterior summarizer returns for every observation k the sum of
exp(ll_fg_i[k] - logaddexp(ll_fg_i[k], ll_bg_i[k])) over all samples
divided by N = S * W, and it is a pure function of the stored data. -/
theorem post_prob_formula {K S W : ℕ} (blobs : List (List (Blob K)))
    (hS : blobs.length = S) (hW : ∀ row ∈ blobs, row.length = W) :
    (∀ k, post_prob blobs k =
        (blobs.flatten.map
          (fun bl => Real.exp (bl.1 k - logaddexp (bl.1 k) (bl.2 k)))).sum /
          ((S * W : ℕ) : ℝ)) ∧
      post_prob blobs = post_prob blobs := by
  refine ⟨fun k => ?_, rfl⟩
  rw [post_prob_eq]
  congr 2
  rw [List.length_flatten, sum_map_length blobs hW, hS]

/-- Witness for C4 on a one-step, one-walker, one-observation blob store. -/
theorem post_prob_formula_witness :
    (blobsEx.length = 1 ∧ ∀ row ∈ blobsEx, row.length = 1) ∧
      post_prob blobsEx 0 =
        (blobsEx.flatten.map
          (fun bl => Real.exp (bl.1 0 - logaddexp (bl.1 0) (bl.2 0)))).sum /
          ((1 * 1 : ℕ) : ℝ) :=
  ⟨⟨rfl, by simp [blobsEx]⟩,
    (post_prob_formula blobsEx rfl (by simp [blobsEx])).1 0⟩

/-- C5: for a parameter vector inside the bounds, the per-sample
membership term exp(arg1 - logaddexp(arg1, arg2)) with
arg1 = ll_fg + log Q and arg2 = ll_bg + log(1 - Q) equals exactly
Q * p_fg / (Q * p_fg + (1 - Q) * p_bg) in linear space. -/
theorem membership_term_linear {K : ℕ} (d : Data K) (p : Params)
    (h : priorOK p) (k : Fin K) :
    Real.exp ((lnlike_fg d p k + Real.log p.Q) -
        logaddexp (lnlike_fg d p k + Real.log p.Q)
          (lnlike_bg d p k + Real.log (1 - p.Q))) =
      p.Q * Real.exp (lnlike_fg d p k) /
        (p.Q * Real.exp (lnlike_fg d p k) +
          (1 - p.Q) * Real.exp (lnlike_bg d p k)) := by
  obtain ⟨-, -, ⟨hQ0, hQ1⟩, -, -⟩ := (priorOK_iff p).mp h
  have h1 : (0 : ℝ) < 1 - p.Q := by linarith
  rw [exp_sub_logaddexp, Real.exp_add, Real.exp_add, Real.exp_log hQ0,
    Real.exp_log h1]
  ring

/-- Witness for C5 at pEx on the one-point data set dEx. -/
theorem membership_term_linear_witness :
    priorOK pEx ∧
      Real.exp ((lnlike_fg dEx pEx 0 + Real.log pEx.Q) -
          logaddexp (lnlike_fg dEx pEx 0 + Real.log pEx.Q)
            (lnlike_bg dEx pEx 0 + Real.log (1 - pEx.Q))) =
        pEx.Q * Real.exp (lnlike_fg dEx pEx 0) /
          (pEx.Q * Real.exp (lnlike_fg dEx pEx 0) +
            (1 - pEx.Q) * Real.exp (lnlike_bg dEx pEx 0)) :=
  ⟨priorOK_pEx, membership_term_linear dEx pEx priorOK_pEx 0⟩

/-- C6: with at least one stored sample, every entry of the posterior
membership probability vector lies in the closed interval [0, 1]. -/
theorem post_prob_mem_unit {K : ℕ} (blobs : List (List (Blob K)))
    (h : 1 ≤ blobs.flatten.length) (k : Fin K) :
    0 ≤ post_prob blobs k ∧ post_prob blobs k ≤ 1 := by
  rw [post_prob_eq]
  have hn : (0 : ℝ) < blobs.flatten.length := by exact_mod_cast h
  constructor
  · refine div_nonneg (List.sum_nonneg ?_) hn.le
    intro v hv
    obtain ⟨bl, hbl, rfl⟩ := List.mem_map.mp hv
    positivity
  · rw [div_le_one hn]
    have hle := List.sum_le_card_nsmul
      (blobs.flatten.map
        (fun bl => Real.exp (bl.1 k - logaddexp (bl.1 k) (bl.2 k)))) 1 ?_
    · simpa only [List.length_map, nsmul_eq_mul, mul_one] using hle
    · intro v hv
      obtain ⟨bl, hbl, rfl⟩ := List.mem_map.mp hv
      exact memb_le_one _ _

/-- Witness for C6 on a one-sample blob store. -/
theorem post_prob_mem_unit_witness :
    1 ≤ blobsEx.flatten.length ∧
      (0 ≤ post_prob blobsEx 0 ∧ post_prob blobsEx 0 ≤ 1) :=
  ⟨by simp [blobsEx], post_prob_mem_unit blobsEx (by simp [blobsEx]) 0⟩

/-- C7: the foreground log-likelihood evaluator returns at every
observation k the value -(1/2) * (((m * x_k + b - y_k) / sigma_k) ^ 2 +
2 * log sigma_k). -/
theorem lnlike_fg_formula {K : ℕ} (d : Data K) (p : Params) (k : Fin K) :
    lnlike_fg d p k =
      -(1 / 2) * (((p.m * d.x k + p.b - d.y k) / d.yerr k) ^ 2 +
        2 * Real.log (d.yerr k)) := by
  simp only [lnlike_fg]
  norm_num

/-- C8: the background log-likelihood evaluator returns at every
observation k the value -(1/2) * ((M - y_k) ^ 2 / var_k + log var_k) with
var_k = exp(lnV) + sigma_k ^ 2. -/
theorem lnlike_bg_formula {K : ℕ} (d : Data K) (p : Params) (k : Fin K) :
    lnlike_bg d p k =
      -(1 / 2) * ((p.M - d.y k) ^ 2 / (Real.exp p.lnV + d.yerr k ^ 2) +
        Real.log (Real.exp p.lnV + d.yerr k ^ 2)) := by
  simp only [lnlike_bg]
  norm_num

/-- C9: for data with positive noise scales and a parameter vector the
prior accepts, every logarithm argument and divisor inside lnprob is
strictly positive: Q, 1 - Q, each sigma_k, and each variance
exp(lnV) + sigma_k ^ 2. -/
theorem lnprob_log_args_pos {K : ℕ} (d : Data K) (p : Params)
    (hd : d.sigmaPos) (h : priorOK p) :
    0 < p.Q ∧ 0 < 1 - p.Q ∧ (∀ k, 0 < d.yerr k) ∧
      ∀ k, 0 < Real.exp p.lnV + d.yerr k ^ 2 := by
  obtain ⟨-, -, ⟨hQ0, hQ1⟩, -, -⟩ := (priorOK_iff p).mp h
  exact ⟨hQ0, by linarith, hd, fun k => by positivity⟩

/-- Witness for C9 at the concrete data set dEx and parameter vector pEx. -/
theorem lnprob_log_args_pos_witness :
    (dEx.sigmaPos ∧ priorOK pEx) ∧
      (0 < pEx.Q ∧ 0 < 1 - pEx.Q ∧ (∀ k, 0 < dEx.yerr k) ∧
        ∀ k, 0 < Real.exp pEx.lnV + dEx.yerr k ^ 2) :=
  ⟨⟨sigmaPos_dEx, priorOK_pEx⟩, lnprob_log_args_pos dEx pEx sigmaPos_dEx priorOK_pEx⟩

/-- C10: a parameter vector with some component exactly equal to an
endpoint of its bound interval is rejected by the prior, and lnprob
returns minus infinity with two all-zero vectors: both comparisons are
strict. -/
theorem boundary_rejected {K : ℕ} (d : Data K) (p : Params)
    (h : ∃ vb ∈ p.toList.zip bounds, vb.1 = vb.2.1 ∨ vb.1 = vb.2.2) :
    ¬ priorOK p ∧ lnprob d p = (⊥, fun _ => 0, fun _ => 0) := by
  have hn : ¬ priorOK p := by
    intro hok
    obtain ⟨⟨v, bd⟩, hmem, hv⟩ := h
    obtain ⟨hlo, hhi⟩ := (List.forall₂_iff_zip.mp hok).2 hmem
    rcases hv with h1 | h2
    · have h1v : v = bd.1 := h1
      rw [h1v] at hlo
      exact lt_irrefl _ hlo
    · have h2v : v = bd.2 := h2
      rw [h2v] at hhi
      exact lt_irrefl _ hhi
  exact ⟨hn, lnprob_reject d p hn⟩

/-- Witness for C10 at the boundary parameter vector pEdge with Q = 0. -/
theorem boundary_rejected_witness :
    (∃ vb ∈ pEdge.toList.zip bounds, vb.1 = vb.2.1 ∨ vb.1 = vb.2.2) ∧
      (¬ priorOK pEdge ∧ lnprob dEx pEdge = (⊥, fun _ => 0, fun _ => 0)) :=
  ⟨pEdge_on_boundary, boundary_rejected dEx pEdge pEdge_on_boundary⟩

end

end MixtureModel
